import Mathlib

/-!
# Verification of the eSSL-attlog command-orchestration core

Shallow embedding of the per-device command queues, the heartbeat handler,
the acknowledgment path and the connection-mode arbitration of the
eSSL-attlog server, together with proofs of the specification claims.

Python `datetime` timestamps are modelled as `Nat` ticks (seconds); Python
`int` is modelled as `Int`; Python dicts keyed by serial number are modelled
as association lists with first-key-wins lookup, which matches dict
semantics on the unique-key states the code constructs.
-/

namespace ESSL

/-! ## Association-list model of a Python dict

`setK` overwrites the (first) entry for a key in place, appending a new
entry when the key is absent; `delK` removes the (first) entry for a key.
On unique-key lists these are exactly Python dict assignment and `del`. -/

def setK {α : Type} : List (String × α) → String → α → List (String × α)
  | [], k, v => [(k, v)]
  | (a, b) :: m, k, v => if a = k then (k, v) :: m else (a, b) :: setK m k v

def delK {α : Type} : List (String × α) → String → List (String × α)
  | [], _ => []
  | (a, b) :: m, k => if a = k then m else (a, b) :: delK m k

def lookupK {α : Type} : List (String × α) → String → Option α
  | [], _ => none
  | (a, b) :: m, k => if a = k then some b else lookupK m k

/-- Python `'sep'.join(strings)`. -/
def joinSep (sep : String) : List String → String
  | [] => ""
  | [x] => x
  | x :: y :: xs => x ++ sep ++ joinSep sep (y :: xs)

/-- Numeric value of a big-endian list of decimal digit characters; used to
show that `Nat.repr` (hence `toString` on `Nat`) is injective, so that the
decimal-string command ids minted by `ADMSQueue.next_sequence` are distinct
whenever their counters are. -/
def digitsVal (l : List Char) : Nat :=
  l.foldl (fun a c => a * 10 + (c.toNat - 48)) 0

/-! ## CommandManager (src/app/utils/command_manager.py)

The legacy global queue used by the live push-API endpoints.  Command ids
are Python ints (`Int`); states map a serial number to its command list and
to its id-sequence counter. -/

namespace CM

inductive Status
  | pending
  | sent
  | done
deriving DecidableEq, Repr

structure DeviceCommand where
  id : Int
  command : String
  status : Status
  queuedAt : Nat
  sentAt : Option Nat
  doneAt : Option Nat
  deviceAck : Option String
deriving DecidableEq, Repr

structure CMState where
  deviceCommands : List (String × List DeviceCommand)
  deviceSeq : List (String × Int)
deriving DecidableEq, Repr

/-- Model of `CommandManager.__init__` -/
def init : CMState := ⟨[], []⟩

/-- Model of `CommandManager._next_command_id_for` -/
def nextCommandIdFor (s : CMState) (sn : String) : Int × CMState :=
  let lastId := (lookupK s.deviceSeq sn).getD 0
  let nextId := lastId + 1
  (nextId, { s with deviceSeq := setK s.deviceSeq sn nextId })

/-- Model of `CommandManager.queue_command` -/
def queueCommand (s : CMState) (sn : String) (commandText : String) (now : Nat) :
    DeviceCommand × CMState :=
  let r := nextCommandIdFor s sn
  let cmd : DeviceCommand :=
    { id := r.1, command := commandText, status := .pending,
      queuedAt := now, sentAt := none, doneAt := none, deviceAck := none }
  (cmd, { r.2 with
           deviceCommands :=
             setK r.2.deviceCommands sn (((lookupK r.2.deviceCommands sn).getD []) ++ [cmd]) })

/-- The in-place mutation `cmd['status'] = 'sent'; cmd['sentAt'] = now`
applied to pending commands inside `get_pending_commands`. -/
def markSent (now : Nat) (c : DeviceCommand) : DeviceCommand :=
  if c.status = .pending then { c with status := .sent, sentAt := some now } else c

/-- Model of `CommandManager.get_pending_commands`: collects the pending commands,
mutating each to `sent` in place.  When the serial number has no entry the
dict is left untouched (`.get(sn, [])` yields a fresh list). -/
def getPendingCommands (s : CMState) (sn : String) (now : Nat) :
    List DeviceCommand × CMState :=
  match lookupK s.deviceCommands sn with
  | none => ([], s)
  | some cmds =>
    (((cmds.filter (fun c => c.status = .pending)).map (markSent now)),
     { s with deviceCommands := setK s.deviceCommands sn (cmds.map (markSent now)) })

/-- The loop guard of `acknowledge_command`: first command whose id matches
and whose status is `sent`. -/
def ackMatch (cid : Int) (c : DeviceCommand) : Bool :=
  c.id == cid && c.status == .sent

/-- Model of `CommandManager.acknowledge_command`: the matched command is mutated to
`done` and then immediately popped from the list, so the net state change is
the removal of the first matching element; the device's map entry is deleted
when its list becomes empty. -/
def acknowledgeCommand (s : CMState) (sn : String) (cid : Int)
    (_deviceAck : String) (_now : Nat) : Bool × CMState :=
  let cmds := (lookupK s.deviceCommands sn).getD []
  if cmds.any (ackMatch cid) then
    let newCmds := cmds.eraseP (ackMatch cid)
    if newCmds.isEmpty then
      (true, { s with deviceCommands := delK s.deviceCommands sn })
    else
      (true, { s with deviceCommands := setK s.deviceCommands sn newCmds })
  else
    (false, s)

/-- Model of `CommandManager.get_device_commands` -/
def getDeviceCommands (s : CMState) (sn : String) : List DeviceCommand :=
  (lookupK s.deviceCommands sn).getD []

/-- Model of `CommandManager.cleanup_completed_commands` restricted to one serial
number (`devices_to_clean = [sn]`).  `done_commands[-keep_last_n:]` is the
whole list when `keep_last_n = 0` (Python slice `[-0:]`). -/
def cleanupCompleted (s : CMState) (sn : String) (keepLastN : Nat) : CMState × Nat :=
  let cmds := (lookupK s.deviceCommands sn).getD []
  let active := cmds.filter (fun c => c.status = .pending ∨ c.status = .sent)
  let doneCmds := cmds.filter (fun c => c.status = .done)
  if doneCmds.length > keepLastN then
    let kept := if keepLastN = 0 then doneCmds else doneCmds.drop (doneCmds.length - keepLastN)
    ({ s with deviceCommands := setK s.deviceCommands sn (active ++ kept) },
     doneCmds.length - keepLastN)
  else
    (s, 0)

/-! ### Operation traces over the command manager (for the id-uniqueness
invariant).  Each operation is one public mutator of `CommandManager`;
`runIssued` records every `(serial number, id)` pair minted along the run. -/

inductive Op
  | queue (sn text : String) (now : Nat)
  | drain (sn : String) (now : Nat)
  | ack (sn : String) (cid : Int) (deviceAck : String) (now : Nat)
  | cleanup (sn : String) (keepLastN : Nat)

def stepIssued (s : CMState) : Op → CMState × List (String × Int)
  | .queue sn text now =>
    let r := queueCommand s sn text now
    (r.2, [(sn, r.1.id)])
  | .drain sn now => ((getPendingCommands s sn now).2, [])
  | .ack sn cid deviceAck now => ((acknowledgeCommand s sn cid deviceAck now).2, [])
  | .cleanup sn keepLastN => ((cleanupCompleted s sn keepLastN).1, [])

def runIssued (s : CMState) : List Op → List (String × Int)
  | [] => []
  | op :: ops =>
    let r := stepIssued s op
    r.2 ++ runIssued r.1 ops

/-- The ids a run mints for one particular device queue. -/
def issuedFor (sn : String) (l : List (String × Int)) : List Int :=
  (l.filter (fun e => e.1 = sn)).map (fun e => e.2)

/-- The per-device sequence counter (`_device_seq.get(sn, 0)`). -/
def seqOf (s : CMState) (sn : String) : Int :=
  (lookupK s.deviceSeq sn).getD 0

end CM

/-! ## ADMSQueue (src/app/utils/adms_queue.py)

The per-device queue owned by a `Device`.  Command ids are decimal strings
minted from a monotone counter. -/

namespace ADMS

inductive Status
  | pending
  | sent
  | failed
  | acked
deriving DecidableEq, Repr

structure DeviceCommand where
  id : String
  command : String
  status : Status
  queued_at : Nat
  sent_at : Option Nat
  ack_at : Option Nat
  return_code : Option String
deriving DecidableEq, Repr

structure ADMSQueue where
  commands : List DeviceCommand
  command_sequence : Nat
deriving DecidableEq, Repr

/-- Model of `ADMSQueue.next_sequence` -/
def next_sequence (q : ADMSQueue) : String × ADMSQueue :=
  (toString (q.command_sequence + 1), { q with command_sequence := q.command_sequence + 1 })

/-- Model of `ADMSQueue.add_command` -/
def add_command (q : ADMSQueue) (command : String) (now : Nat) :
    DeviceCommand × ADMSQueue :=
  let r := next_sequence q
  let cmd : DeviceCommand :=
    { id := r.1, command := command, status := .pending,
      queued_at := now, sent_at := none, ack_at := none, return_code := none }
  (cmd, { r.2 with commands := r.2.commands ++ [cmd] })

/-- Model of `ADMSQueue.get_pending_commands`: a pure filter — it does not change
any command's status. -/
def get_pending_commands (q : ADMSQueue) : List DeviceCommand :=
  q.commands.filter (fun c => c.status = .pending)

/-- Update the first element satisfying `p` (the `for ... break` loops of
`mark_command_sent` / `mark_command_acked`). -/
def updateFirst {α : Type} (p : α → Bool) (f : α → α) : List α → List α
  | [] => []
  | x :: xs => if p x then f x :: xs else x :: updateFirst p f xs

/-- Model of `ADMSQueue.mark_command_sent`: first command with the given id,
regardless of its current status. -/
def mark_command_sent (q : ADMSQueue) (command_id : String) (now : Nat) : ADMSQueue :=
  let newCmds := updateFirst (fun c => c.id == command_id)
    (fun c => { c with status := .sent, sent_at := some now }) q.commands
  { q with commands := newCmds }

/-- Model of `ADMSQueue.mark_command_acked`: first command with the given id,
regardless of its current status; returns nothing. -/
def mark_command_acked (q : ADMSQueue) (command_id : String) (return_code : String)
    (now : Nat) : ADMSQueue :=
  let newCmds := updateFirst (fun c => c.id == command_id)
    (fun c => { c with status := .acked, ack_at := some now,
                       return_code := some return_code }) q.commands
  { q with commands := newCmds }

/-! ### `_cleanup_device_commands` (src/app/routers/commands.py)

Acked commands are sorted by `ack_at` newest-first (Python's stable sort
with `reverse=True`; the `or datetime.min` default never fires after the
`ack_at is not None` filter), everything past the first `keep_last_n` of
them is removed from the queue (`list.remove`, first occurrence, guarded
by membership — exactly `List.diff`). -/

def isCleanupAcked (c : DeviceCommand) : Bool :=
  c.status == .acked && c.ack_at.isSome

def ackKey (c : DeviceCommand) : Nat := c.ack_at.getD 0

/-- Descending-by-`ack_at` comparison handed to the sort. -/
def ackDesc (a b : DeviceCommand) : Bool := decide (ackKey b ≤ ackKey a)

def sortedAckedDesc (q : ADMSQueue) : List DeviceCommand :=
  (q.commands.filter isCleanupAcked).mergeSort ackDesc

def cleanup_device_commands (q : ADMSQueue) (keep_last_n : Nat) : ADMSQueue × Nat :=
  let sorted := sortedAckedDesc q
  let commandsToRemove := if sorted.length > keep_last_n then sorted.drop keep_last_n else []
  ({ q with commands := q.commands.diff commandsToRemove }, commandsToRemove.length)

/-! ### Operation traces over one ADMS queue (for the id-uniqueness
invariant).  Each operation is one public mutator of the queue — enqueue
via `add_command` (the admin `:queue` endpoint and the device fallbacks),
the two mark transitions, and the router cleanup; `runIssuedA` records
every id minted along the run. -/

inductive AOp
  | add (text : String) (now : Nat)
  | markSent (command_id : String) (now : Nat)
  | markAcked (command_id return_code : String) (now : Nat)
  | cleanup (keep_last_n : Nat)

def stepIssuedA (q : ADMSQueue) : AOp → ADMSQueue × List String
  | .add text now =>
    let r := add_command q text now
    (r.2, [r.1.id])
  | .markSent command_id now => (mark_command_sent q command_id now, [])
  | .markAcked command_id return_code now =>
    (mark_command_acked q command_id return_code now, [])
  | .cleanup keep_last_n => ((cleanup_device_commands q keep_last_n).1, [])

def runIssuedA (q : ADMSQueue) : List AOp → List String
  | [] => []
  | op :: ops => (stepIssuedA q op).2 ++ runIssuedA (stepIssuedA q op).1 ops

/-- The sequence-counter values behind the ids a run mints: `add_command`
mints `toString (command_sequence + 1)`, so these are the numeric values of
the issued ids, in issue order. -/
def runIssuedNumsA (q : ADMSQueue) : List AOp → List Nat
  | [] => []
  | op :: ops =>
    (match op with
     | .add _ _ => [q.command_sequence + 1]
     | _ => []) ++ runIssuedNumsA (stepIssuedA q op).1 ops

end ADMS

/-! ## Wire tokens (src/app/commands.py) -/

def ACK : String := "OK"
def QUERY_ATTLOG : String := "DATA QUERY ATTLOG"

/-- Model of `validate_command_id` (src/app/commands.py): `None`/empty ids and ids
that are not alphanumeric or exceed 16 characters are rejected.  Python's
`str.isalnum` is true iff the string is non-empty and every character is
alphanumeric (modelled over ASCII via `Char.isAlphanum`). -/
def validate_command_id (_device_sn : String) (cmd_id : Option String) : Option String :=
  match cmd_id with
  | none => none
  | some cid =>
    if cid = "" then none
    else if cid.toList.all Char.isAlphanum && cid.length ≤ 16 then some cid
    else none

/-! ## Push API (src/app/routers/push_api.py) -/

namespace Push

open CM

/-- Module-level state of push_api.py: the shared command manager and the
process-wide `last_attlog` timestamp. -/
structure PushState where
  cm : CMState
  last_attlog : Nat
deriving DecidableEq, Repr

def ATTLOG_FREQUENCY_MINUTES : Nat := 5

structure HttpResponse where
  body : String
  statusCode : Nat
deriving DecidableEq, Repr

/-- The rate-limited ATTLOG enqueue at the top of `get_request`
(`datetime.now() - last_attlog > timedelta(minutes=5) and SN is not None`).
Time is in seconds; Python's possibly-negative timedelta compares like the
truncated `Nat` difference here (both are `> 300` only when `now` is more
than 300s past `last_attlog`). -/
def attlogStep (st : PushState) (sn : Option String) (now : Nat) : PushState :=
  if now - st.last_attlog > ATTLOG_FREQUENCY_MINUTES * 60 && sn.isSome then
    { cm := (queueCommand st.cm (sn.getD "") QUERY_ATTLOG now).2, last_attlog := now }
  else st

/-- One wire line `C:<id>:<command>` for a command. -/
def wireLine (c : DeviceCommand) : String := s!"C:{c.id}:{c.command}"

/-- The response text built for a non-empty command list:
`'\n'.join(lines) + '\n'` over lines `C:<id>:<command>`. -/
def responseText (cmds : List DeviceCommand) : String :=
  joinSep "\n" (cmds.map wireLine) ++ "\n"

/-- The framing the specification describes: one line per command, each
line newline-terminated, concatenated in order. -/
def concatLines : List String → String
  | [] => ""
  | x :: xs => x ++ "\n" ++ concatLines xs

/-- Model of `get_request` (`GET /getrequest.aspx`): the INFO parameter is only
logged; a `PlainTextResponse` carries HTTP status 200.  `if SN:` is Python
truthiness, so an empty serial number string skips the drain. -/
def get_request (st : PushState) (sn info : Option String) (now : Nat) :
    PushState × HttpResponse :=
  let _ := info  -- INFO is parsed for logging only; no state effect
  let st1 := attlogStep st sn now
  match sn with
  | some s =>
    if s ≠ "" then
      let r := getPendingCommands st1.cm s now
      let st2 : PushState := { st1 with cm := r.2 }
      if r.1.isEmpty then (st2, ⟨ACK, 200⟩)
      else (st2, ⟨responseText r.1, 200⟩)
    else (st1, ⟨ACK, 200⟩)
  | none => (st1, ⟨ACK, 200⟩)

/-- The parsed POST body of `/devicecmd.aspx` (first value of each
form-encoded key, as built by `parse_qs`). -/
structure BodyData where
  ID : Option String
  Return : Option String
  CMD : Option String
  SN : Option String
deriving DecidableEq, Repr

/-- Python string truthiness for an optional value (`None` and `""` are
falsy). -/
def optTruthy (o : Option String) : Bool := o.getD "" != ""

/-- Core of Python `int(s)`: an optional single sign followed by one or
more decimal digits (whitespace stripping and `_` digit separators, which
`int` also accepts, do not occur in the inputs considered here). -/
def intParse? (s : String) : Option Int :=
  let digitsVal : List Char → Int :=
    fun ds => Int.ofNat (ds.foldl (fun a c => a * 10 + (c.toNat - 48)) 0)
  match s.toList with
  | [] => none
  | c :: rest =>
    if c = '-' then
      if rest ≠ [] && rest.all Char.isDigit then some (-(digitsVal rest)) else none
    else if c = '+' then
      if rest ≠ [] && rest.all Char.isDigit then some (digitsVal rest) else none
    else
      if (c :: rest).all Char.isDigit then some (digitsVal (c :: rest)) else none

/-- Model of `_process_command_acknowledgment_post`.  The returned Boolean is
instrumentation recording whether `command_manager.acknowledge_command` was
invoked with the parsed id (the Python function returns `None`); a record
is dropped before reaching the queue when the `sn and cmd_id and cmd_text`
truthiness guard fails or `int(cmd_id)` raises `ValueError`. -/
def processAckPost (s : CMState) (sn : String) (bd : BodyData) (now : Nat) :
    CMState × Bool :=
  if !(sn != "" && optTruthy bd.ID && optTruthy bd.CMD) then (s, false)
  else
    match intParse? (bd.ID.getD "") with
    | none => (s, false)
    | some command_id =>
      let device_ack := if bd.Return = some "0" then "OK" else "ERR"
      ((acknowledgeCommand s sn command_id device_ack now).2, true)

/-- Model of `device_command_post` (`POST /devicecmd.aspx`): `body = none` stands
for a body with no `=` (skipped); the serial number falls back to the
body's `SN` field when the query parameter is absent or empty; the handler
returns the literal `OK` on every path (any processing exception is caught). -/
def device_command_post (s : CMState) (snQuery : Option String)
    (body : Option BodyData) (now : Nat) : CMState × String :=
  let SN0 := snQuery.getD ""
  match body with
  | none => (s, ACK)
  | some bd =>
    let SN := if SN0 = "" then bd.SN.getD "" else SN0
    ((processAckPost s SN bd now).1, ACK)

end Push

/-! ## Device connection-mode arbitration (src/app/utils/device.py) -/

namespace Dev

inductive ConnMode
  | adms
  | socketAdms
deriving DecidableEq, Repr

/-- The fields of `Device` that `set_socket_mode` reads and writes:
`_connection_mode`, `socket_mode`, and the ZK socket handle's connection
flag. -/
structure DeviceState where
  connection_mode : ConnMode
  socket_mode : Bool
  zk_connected : Bool
deriving DecidableEq, Repr

/-- Outcomes of the network calls made during `set_socket_mode`:
whether `zk.disconnect()` and `zk.connect()` raise. -/
structure SocketEnv where
  disconnect_ok : Bool
  connect_ok : Bool
deriving DecidableEq, Repr

/-- Model of `Device.is_socket_mode` recomputes and stores the `socket_mode` flag. -/
def is_socket_mode (d : DeviceState) : Bool × DeviceState :=
  let b := d.zk_connected && (d.connection_mode == .socketAdms)
  (b, { d with socket_mode := b })

/-- Model of `Device.set_socket_mode`.  The Python guard
`if not self._connection_mode and not force` compares a non-empty string
and is never taken; the disconnect `try` block swallows its exception
leaving the state as it was; recreating the ZK instance yields a fresh,
unconnected handle before the connect attempt. -/
def set_socket_mode (d : DeviceState) (is_on force : Bool) (env : SocketEnv) :
    DeviceState :=
  if d.connection_mode == .adms then d
  else
    let r := is_socket_mode d
    if is_on == r.1 && !force then r.2
    else
      let d2 :=
        if r.2.zk_connected then
          if env.disconnect_ok then
            { r.2 with zk_connected := false, socket_mode := false,
                       connection_mode := .adms }
          else r.2
        else r.2
      if is_on then
        let d3 := { d2 with zk_connected := false }
        if env.connect_ok then
          { d3 with zk_connected := true, socket_mode := true,
                    connection_mode := .socketAdms }
        else
          { d3 with socket_mode := false, connection_mode := .adms }
      else d2

/-- Model of `set_socket_mode` reaches its `zk.connect()` attempt exactly when the
mode is `socket+adms`, the `is_on == is_socket_mode()` short-circuit does
not fire, and `is_on` is true. -/
def attemptsConnect (d : DeviceState) (is_on force : Bool) : Bool :=
  d.connection_mode == .socketAdms
    && !(is_on == (is_socket_mode d).1 && !force)
    && is_on

end Dev

/-! ## Helper lemmas -/

theorem lookupK_setK_self {α : Type} (m : List (String × α)) (k : String) (v : α) :
    lookupK (setK m k v) k = some v := by
  induction m with
  | nil => simp [setK, lookupK]
  | cons e m ih =>
    obtain ⟨a, b⟩ := e
    by_cases h : a = k
    · simp [setK, lookupK, h]
    · simp [setK, lookupK, h, ih]

theorem lookupK_setK_ne {α : Type} (m : List (String × α)) (k k' : String) (v : α)
    (h : k' ≠ k) : lookupK (setK m k v) k' = lookupK m k' := by
  induction m with
  | nil => simp [setK, lookupK, Ne.symm h]
  | cons e m ih =>
    obtain ⟨a, b⟩ := e
    by_cases hak : a = k
    · subst hak
      simp [setK, lookupK, Ne.symm h]
    · by_cases hak' : a = k'
      · subst hak'
        simp [setK, lookupK, hak]
      · simp [setK, lookupK, hak, hak', ih]

theorem lookupK_mem_keys {α : Type} (m : List (String × α)) (k : String) (v : α)
    (h : lookupK m k = some v) : k ∈ m.map Prod.fst := by
  induction m with
  | nil => simp [lookupK] at h
  | cons e m ih =>
    obtain ⟨a, b⟩ := e
    by_cases hak : a = k
    · simp [hak]
    · simp only [lookupK, if_neg hak] at h
      simp [ih h]

theorem lookupK_delK_self {α : Type} (m : List (String × α)) (k : String)
    (hnd : (m.map Prod.fst).Nodup) : lookupK (delK m k) k = none := by
  induction m with
  | nil => simp [delK, lookupK]
  | cons e m ih =>
    obtain ⟨a, b⟩ := e
    simp only [List.map_cons, List.nodup_cons] at hnd
    by_cases h : a = k
    · subst h
      cases hlk : lookupK m a with
      | none => simp [delK, hlk]
      | some v => exact absurd (lookupK_mem_keys m a v hlk) hnd.1
    · simp [delK, lookupK, h, ih hnd.2]

theorem joinSep_newline_eq_concatLines (x : String) :
    ∀ xs : List String,
      joinSep "\n" (x :: xs) ++ "\n" = Push.concatLines (x :: xs) := by
  intro xs
  induction xs generalizing x with
  | nil => simp [joinSep, Push.concatLines]
  | cons y ys ih =>
    show (x ++ "\n" ++ joinSep "\n" (y :: ys)) ++ "\n" = x ++ "\n" ++ Push.concatLines (y :: ys)
    rw [String.append_assoc (x ++ "\n") (joinSep "\n" (y :: ys)) "\n", ih y]

theorem markSent_status (now : Nat) (c : CM.DeviceCommand) :
    (CM.markSent now c).status ≠ CM.Status.pending := by
  unfold CM.markSent
  by_cases h : c.status = CM.Status.pending <;> simp [h]

/-- Net state change of a successful `acknowledge_command`: the device's
list loses exactly the first `sent` command with the matching id; on
failure nothing changes. -/
theorem acknowledgeCommand_spec (s : CM.CMState) (sn : String) (cid : Int)
    (deviceAck : String) (now : Nat)
    (hkeys : (s.deviceCommands.map Prod.fst).Nodup) :
    (((CM.getDeviceCommands s sn).any (CM.ackMatch cid) = false →
        CM.acknowledgeCommand s sn cid deviceAck now = (false, s)) ∧
     ((CM.getDeviceCommands s sn).any (CM.ackMatch cid) = true →
        (CM.acknowledgeCommand s sn cid deviceAck now).1 = true ∧
        CM.getDeviceCommands (CM.acknowledgeCommand s sn cid deviceAck now).2 sn =
          (CM.getDeviceCommands s sn).eraseP (CM.ackMatch cid))) := by
  constructor
  · intro h
    simp only [CM.getDeviceCommands] at h
    simp [CM.acknowledgeCommand, h]
  · intro h
    simp only [CM.getDeviceCommands] at h
    by_cases he :
        (((lookupK s.deviceCommands sn).getD []).eraseP (CM.ackMatch cid)).isEmpty = true
    · have hres : CM.acknowledgeCommand s sn cid deviceAck now =
          (true, { s with deviceCommands := delK s.deviceCommands sn }) := by
        simp [CM.acknowledgeCommand, h, he]
      rw [hres]
      refine ⟨rfl, ?_⟩
      simp only [CM.getDeviceCommands]
      rw [lookupK_delK_self s.deviceCommands sn hkeys]
      simp only [Option.getD_none]
      exact (List.isEmpty_iff.mp he).symm
    · have hres : CM.acknowledgeCommand s sn cid deviceAck now =
          (true, { s with deviceCommands := setK s.deviceCommands sn (((lookupK s.deviceCommands sn).getD []).eraseP (CM.ackMatch cid)) }) := by
        simp [CM.acknowledgeCommand, h, he]
      rw [hres]
      refine ⟨rfl, ?_⟩
      simp only [CM.getDeviceCommands]
      rw [lookupK_setK_self]
      rfl

/-- If the ids in a list are distinct and some element matches
`ackMatch cid`, then after `eraseP (ackMatch cid)` the id `cid` is gone. -/
theorem eraseP_ackMatch_not_mem (cid : Int) :
    ∀ l : List CM.DeviceCommand,
      (l.map (fun c => c.id)).Nodup →
      l.any (CM.ackMatch cid) = true →
      cid ∉ (l.eraseP (CM.ackMatch cid)).map (fun c => c.id) := by
  intro l
  induction l with
  | nil => simp
  | cons c t ih =>
    intro hnd hany
    simp only [List.map_cons, List.nodup_cons] at hnd
    by_cases hc : CM.ackMatch cid c = true
    · have hid : c.id = cid := by
        simp only [CM.ackMatch, Bool.and_eq_true, beq_iff_eq] at hc
        exact hc.1
      simp only [List.eraseP_cons, hc, cond_true]
      intro hmem
      exact hnd.1 (hid ▸ hmem)
    · have hany' : t.any (CM.ackMatch cid) = true := by
        rcases List.any_eq_true.mp hany with ⟨x, hx, hxm⟩
        rcases List.mem_cons.mp hx with hx | hx
        · exact absurd (hx ▸ hxm) hc
        · exact List.any_eq_true.mpr ⟨x, hx, hxm⟩
      have hcid_ne : c.id ≠ cid := by
        intro hEq
        rcases List.any_eq_true.mp hany' with ⟨x, hx, hxm⟩
        have hxid : x.id = cid := by
          simp only [CM.ackMatch, Bool.and_eq_true, beq_iff_eq] at hxm
          exact hxm.1
        apply hnd.1
        rw [hEq, ← hxid]
        exact List.mem_map_of_mem (fun c => c.id) hx
      have hcb : CM.ackMatch cid c = false := by
        simp only [Bool.not_eq_true] at hc
        exact hc
      simp only [List.eraseP_cons, hcb, cond_false, List.map_cons, List.mem_cons]
      rintro (h | h)
      · exact hcid_ne h.symm
      · exact ih hnd.2 hany' h

/-! ## Claim C1 -/

/-- Claim C1, counterexample: `ADMSQueue.get_pending_commands` does not
transition the commands it returns: after enqueueing "UNLOCK", the drained
list is non-empty and its command is still `pending` (and since the
function takes no state, a second drain returns the very same non-empty
list), contradicting the claim that draining transitions each returned
command to `sent` and that a second drain returns `[]`. -/
theorem C1_adms_drain_counterexample :
    ADMS.get_pending_commands (ADMS.add_command ⟨[], 0⟩ "UNLOCK" 0).2 ≠ []
    ∧ (ADMS.get_pending_commands (ADMS.add_command ⟨[], 0⟩ "UNLOCK" 0).2).map
        (fun c => c.status) = [ADMS.Status.pending] := by
  constructor
  · decide
  · rfl

/-- Claim C1, amended: `CommandManager.get_pending_commands` drains as the
claim states: it returns exactly the commands that were `pending`, each
transitioned to `sent` with `sentAt` set at drain time, and a second drain
immediately after, with no intervening enqueue, returns `[]`. -/
theorem C1_drain_pending_correct (s : CM.CMState) (sn : String) (now now' : Nat) :
    (CM.getPendingCommands s sn now).1 =
      ((CM.getDeviceCommands s sn).filter
        (fun c => c.status = CM.Status.pending)).map (CM.markSent now)
    ∧ (∀ c ∈ (CM.getPendingCommands s sn now).1,
        c.status = CM.Status.sent ∧ c.sentAt = some now)
    ∧ (CM.getPendingCommands (CM.getPendingCommands s sn now).2 sn now').1 = [] := by
  cases hlk : lookupK s.deviceCommands sn with
  | none =>
    have h1 : CM.getPendingCommands s sn now = ([], s) := by
      simp [CM.getPendingCommands, hlk]
    have hg : CM.getDeviceCommands s sn = [] := by
      simp [CM.getDeviceCommands, hlk]
    refine ⟨by rw [h1, hg]; rfl, by rw [h1]; intro c hc; simp at hc, ?_⟩
    rw [h1]
    simp [CM.getPendingCommands, hlk]
  | some cmds =>
    have h1 : CM.getPendingCommands s sn now =
        ((cmds.filter (fun c => c.status = CM.Status.pending)).map (CM.markSent now),
         { s with deviceCommands := setK s.deviceCommands sn (cmds.map (CM.markSent now)) }) := by
      simp [CM.getPendingCommands, hlk]
    have hg : CM.getDeviceCommands s sn = cmds := by
      simp [CM.getDeviceCommands, hlk]
    refine ⟨by rw [h1, hg], ?_, ?_⟩
    · intro c hc
      rw [h1] at hc
      simp only [List.mem_map, List.mem_filter, decide_eq_true_eq] at hc
      obtain ⟨c0, ⟨_, hc0p⟩, rfl⟩ := hc
      unfold CM.markSent
      simp [hc0p]
    · rw [h1]
      have hlk2 : lookupK (setK s.deviceCommands sn (cmds.map (CM.markSent now))) sn
          = some (cmds.map (CM.markSent now)) := lookupK_setK_self _ _ _
      simp only [CM.getPendingCommands, hlk2]
      have hfil : (cmds.map (CM.markSent now)).filter
          (fun c => decide (c.status = CM.Status.pending)) = [] := by
        apply List.filter_eq_nil_iff.mpr
        intro c hc
        rcases List.mem_map.mp hc with ⟨c0, _, rfl⟩
        simp only [decide_eq_true_eq]
        exact markSent_status now c0
      rw [hfil]
      rfl

/-- Claim C1, witness: The drain property applied to a concrete one-command
queue. -/
theorem C1_drain_pending_correct_witness :
    (CM.getPendingCommands
      (CM.getPendingCommands (CM.queueCommand CM.init "A" "UNLOCK" 1).2 "A" 2).2 "A" 3).1 = [] :=
  (C1_drain_pending_correct (CM.queueCommand CM.init "A" "UNLOCK" 1).2 "A" 2 3).2.2

/-! ## Claim C2 -/

/-- Claim C2, counterexample: `ADMSQueue.mark_command_acked` has no status
gate: acknowledging a command that is still `pending` mutates it to `acked`
(with `ack_at` and `return_code` set) rather than rejecting the ack and
leaving the queue unchanged. -/
theorem C2_ack_gate_counterexample :
    ADMS.mark_command_acked (ADMS.add_command ⟨[], 0⟩ "X" 0).2 "1" "0" 5
      ≠ (ADMS.add_command ⟨[], 0⟩ "X" 0).2
    ∧ (ADMS.mark_command_acked (ADMS.add_command ⟨[], 0⟩ "X" 0).2 "1" "0" 5).commands.map
        (fun c => c.status) = [ADMS.Status.acked] := by
  constructor
  · decide
  · rfl

/-- Claim C2, amended: In `CommandManager.acknowledge_command` the claim's
gate holds: an ack whose id does not match a command in status `sent`
returns `false` and leaves the state unchanged; an ack matching a `sent`
command returns `true`, records the acknowledgment on that command and
removes exactly it (the first match) from the device's list. -/
theorem C2_acknowledge_gate (s : CM.CMState) (sn : String) (cid : Int)
    (deviceAck : String) (now : Nat)
    (hkeys : (s.deviceCommands.map Prod.fst).Nodup) :
    (((CM.getDeviceCommands s sn).any (CM.ackMatch cid) = false →
        CM.acknowledgeCommand s sn cid deviceAck now = (false, s)) ∧
     ((CM.getDeviceCommands s sn).any (CM.ackMatch cid) = true →
        (CM.acknowledgeCommand s sn cid deviceAck now).1 = true ∧
        CM.getDeviceCommands (CM.acknowledgeCommand s sn cid deviceAck now).2 sn =
          (CM.getDeviceCommands s sn).eraseP (CM.ackMatch cid))) :=
  acknowledgeCommand_spec s sn cid deviceAck now hkeys

/-- Claim C2, witness: The gate applied concretely: acking the still-`pending`
command 1 fails and changes nothing; after draining, acking it succeeds. -/
theorem C2_acknowledge_gate_witness :
    CM.acknowledgeCommand (CM.queueCommand CM.init "A" "X" 0).2 "A" 1 "OK" 1
      = (false, (CM.queueCommand CM.init "A" "X" 0).2)
    ∧ (CM.acknowledgeCommand
        (CM.getPendingCommands (CM.queueCommand CM.init "A" "X" 0).2 "A" 1).2 "A" 1 "OK" 2).1
      = true := by
  constructor
  · exact (C2_acknowledge_gate (CM.queueCommand CM.init "A" "X" 0).2 "A" 1 "OK" 1
      (by decide)).1 (by decide)
  · exact ((C2_acknowledge_gate
      (CM.getPendingCommands (CM.queueCommand CM.init "A" "X" 0).2 "A" 1).2 "A" 1 "OK" 2
      (by decide)).2 (by decide)).1

/-! ## Claim C10 -/

/-- Claim C10: A successful `acknowledge_command` removes the acknowledged
command from the device's list (deleting the device's map entry when the
list empties), so the acknowledged id no longer appears in
`get_device_commands`.  Stated under the reachable-state invariants that
map keys and per-device command ids are duplicate-free. -/
theorem C10_ack_removes_command (s : CM.CMState) (sn : String) (cid : Int)
    (deviceAck : String) (now : Nat)
    (hkeys : (s.deviceCommands.map Prod.fst).Nodup)
    (hids : ((CM.getDeviceCommands s sn).map (fun c => c.id)).Nodup)
    (hok : (CM.acknowledgeCommand s sn cid deviceAck now).1 = true) :
    cid ∉ (CM.getDeviceCommands
      (CM.acknowledgeCommand s sn cid deviceAck now).2 sn).map (fun c => c.id) := by
  have hspec := acknowledgeCommand_spec s sn cid deviceAck now hkeys
  cases hany : (CM.getDeviceCommands s sn).any (CM.ackMatch cid) with
  | false =>
    rw [hspec.1 hany] at hok
    simp at hok
  | true =>
    rw [(hspec.2 hany).2]
    exact eraseP_ackMatch_not_mem cid (CM.getDeviceCommands s sn) hids hany

/-- Claim C10, witness: Queue, drain, then ack command 1 for device "A": id 1
is gone from the device's command list. -/
theorem C10_ack_removes_command_witness :
    (1 : Int) ∉ (CM.getDeviceCommands
      (CM.acknowledgeCommand
        (CM.getPendingCommands (CM.queueCommand CM.init "A" "X" 0).2 "A" 1).2
        "A" 1 "OK" 2).2 "A").map (fun c => c.id) :=
  C10_ack_removes_command
    (CM.getPendingCommands (CM.queueCommand CM.init "A" "X" 0).2 "A" 1).2
    "A" 1 "OK" 2 (by decide) (by decide) (by decide)

/-! ## Claim C4 -/

theorem seqOf_queueCommand_self (s : CM.CMState) (sn text : String) (now : Nat) :
    CM.seqOf (CM.queueCommand s sn text now).2 sn = CM.seqOf s sn + 1 := by
  simp [CM.queueCommand, CM.nextCommandIdFor, CM.seqOf, lookupK_setK_self]

theorem seqOf_queueCommand_other (s : CM.CMState) (sn sn' text : String) (now : Nat)
    (h : sn' ≠ sn) :
    CM.seqOf (CM.queueCommand s sn text now).2 sn' = CM.seqOf s sn' := by
  simp [CM.queueCommand, CM.nextCommandIdFor, CM.seqOf,
    lookupK_setK_ne s.deviceSeq sn sn' _ h]

theorem queueCommand_issued_id (s : CM.CMState) (sn text : String) (now : Nat) :
    (CM.queueCommand s sn text now).1.id = CM.seqOf s sn + 1 := by
  simp [CM.queueCommand, CM.nextCommandIdFor, CM.seqOf]

theorem seqOf_eq_of_deviceSeq {s s' : CM.CMState} (sn : String)
    (h : s'.deviceSeq = s.deviceSeq) : CM.seqOf s' sn = CM.seqOf s sn := by
  simp [CM.seqOf, h]

theorem deviceSeq_getPendingCommands (s : CM.CMState) (sn : String) (now : Nat) :
    (CM.getPendingCommands s sn now).2.deviceSeq = s.deviceSeq := by
  cases hlk : lookupK s.deviceCommands sn <;> simp [CM.getPendingCommands, hlk]

theorem deviceSeq_acknowledgeCommand (s : CM.CMState) (sn : String) (cid : Int)
    (deviceAck : String) (now : Nat) :
    (CM.acknowledgeCommand s sn cid deviceAck now).2.deviceSeq = s.deviceSeq := by
  unfold CM.acknowledgeCommand
  by_cases h : ((lookupK s.deviceCommands sn).getD []).any (CM.ackMatch cid) = true
  · by_cases he :
        (((lookupK s.deviceCommands sn).getD []).eraseP (CM.ackMatch cid)).isEmpty = true
    · simp [h, he]
    · simp [h, he]
  · simp [h]

theorem deviceSeq_cleanupCompleted (s : CM.CMState) (sn : String) (keepLastN : Nat) :
    (CM.cleanupCompleted s sn keepLastN).1.deviceSeq = s.deviceSeq := by
  unfold CM.cleanupCompleted
  by_cases h : (((lookupK s.deviceCommands sn).getD []).filter
      (fun c => c.status = CM.Status.done)).length > keepLastN
  · simp [h]
  · simp [h]

theorem seqOf_stepIssued_le (s : CM.CMState) (op : CM.Op) (sn : String) :
    CM.seqOf s sn ≤ CM.seqOf (CM.stepIssued s op).1 sn := by
  cases op with
  | queue sn' text now =>
    show CM.seqOf s sn ≤ CM.seqOf (CM.queueCommand s sn' text now).2 sn
    by_cases h : sn = sn'
    · subst h
      rw [seqOf_queueCommand_self]
      omega
    · rw [seqOf_queueCommand_other s sn' sn text now h]
  | drain sn' now =>
    exact le_of_eq (seqOf_eq_of_deviceSeq sn (deviceSeq_getPendingCommands s sn' now)).symm
  | ack sn' cid deviceAck now =>
    exact le_of_eq
      (seqOf_eq_of_deviceSeq sn (deviceSeq_acknowledgeCommand s sn' cid deviceAck now)).symm
  | cleanup sn' keepLastN =>
    exact le_of_eq
      (seqOf_eq_of_deviceSeq sn (deviceSeq_cleanupCompleted s sn' keepLastN)).symm

theorem issuedFor_append (sn : String) (l₁ l₂ : List (String × Int)) :
    CM.issuedFor sn (l₁ ++ l₂) = CM.issuedFor sn l₁ ++ CM.issuedFor sn l₂ := by
  simp [CM.issuedFor, List.filter_append]

/-- Every id a run mints for `sn` exceeds the sequence counter the run
started from. -/
theorem issued_gt_seq :
    ∀ (ops : List CM.Op) (s : CM.CMState) (sn : String) (i : Int),
      i ∈ CM.issuedFor sn (CM.runIssued s ops) → CM.seqOf s sn < i := by
  intro ops
  induction ops with
  | nil => intro s sn i h; simp [CM.runIssued, CM.issuedFor] at h
  | cons op rest ih =>
    intro s sn i h
    rw [show CM.runIssued s (op :: rest)
        = (CM.stepIssued s op).2 ++ CM.runIssued (CM.stepIssued s op).1 rest from rfl,
      issuedFor_append] at h
    rcases List.mem_append.mp h with h | h
    · cases op with
      | queue sn' text now =>
        by_cases hsn : sn' = sn
        · subst hsn
          simp [CM.stepIssued, CM.issuedFor] at h
          rw [h, queueCommand_issued_id]
          omega
        · simp [CM.stepIssued, CM.issuedFor, hsn] at h
      | drain sn' now => simp [CM.stepIssued, CM.issuedFor] at h
      | ack sn' cid deviceAck now => simp [CM.stepIssued, CM.issuedFor] at h
      | cleanup sn' keepLastN => simp [CM.stepIssued, CM.issuedFor] at h
    · exact lt_of_le_of_lt (seqOf_stepIssued_le s op sn) (ih (CM.stepIssued s op).1 sn i h)

/-- After a `queue sn` step the counter equals the freshly minted id. -/
theorem seqOf_after_queue (s : CM.CMState) (sn text : String) (now : Nat) :
    CM.seqOf (CM.queueCommand s sn text now).2 sn = (CM.queueCommand s sn text now).1.id := by
  rw [seqOf_queueCommand_self, queueCommand_issued_id]

theorem issued_pairwise :
    ∀ (ops : List CM.Op) (s : CM.CMState) (sn : String),
      List.Pairwise (· < ·) (CM.issuedFor sn (CM.runIssued s ops)) := by
  intro ops
  induction ops with
  | nil => intro s sn; simp [CM.runIssued, CM.issuedFor]
  | cons op rest ih =>
    intro s sn
    rw [show CM.runIssued s (op :: rest)
        = (CM.stepIssued s op).2 ++ CM.runIssued (CM.stepIssued s op).1 rest from rfl,
      issuedFor_append]
    apply List.pairwise_append.mpr
    refine ⟨?_, ih (CM.stepIssued s op).1 sn, ?_⟩
    · cases op with
      | queue sn' text now =>
        by_cases hsn : sn' = sn
        · subst hsn
          simp [CM.stepIssued, CM.issuedFor]
        · simp [CM.stepIssued, CM.issuedFor, hsn]
      | drain sn' now => simp [CM.stepIssued, CM.issuedFor]
      | ack sn' cid deviceAck now => simp [CM.stepIssued, CM.issuedFor]
      | cleanup sn' keepLastN => simp [CM.stepIssued, CM.issuedFor]
    · intro a ha b hb
      have hb' := issued_gt_seq rest (CM.stepIssued s op).1 sn b hb
      cases op with
      | queue sn' text now =>
        by_cases hsn : sn' = sn
        · subst hsn
          simp [CM.stepIssued, CM.issuedFor] at ha
          simp only [CM.stepIssued] at hb'
          rw [seqOf_queueCommand_self] at hb'
          rw [ha, queueCommand_issued_id]
          exact hb'
        · simp [CM.stepIssued, CM.issuedFor, hsn] at ha
      | drain sn' now => simp [CM.stepIssued, CM.issuedFor] at ha
      | ack sn' cid deviceAck now => simp [CM.stepIssued, CM.issuedFor] at ha
      | cleanup sn' keepLastN => simp [CM.stepIssued, CM.issuedFor] at ha

/-! Decimal representation: `Nat.repr` (and hence `toString` on `Nat`) is
injective, so the string ids `ADMSQueue.next_sequence` mints from distinct
counters are distinct. -/

theorem digitChar_val (d : Nat) (h : d < 10) : (Nat.digitChar d).toNat - 48 = d := by
  interval_cases d <;> rfl

theorem digitsVal_singleton (c : Char) : digitsVal [c] = c.toNat - 48 := by
  simp [digitsVal]

theorem digitsVal_append_digit (xs : List Char) (c : Char) :
    digitsVal (xs ++ [c]) = digitsVal xs * 10 + (c.toNat - 48) := by
  simp [digitsVal, List.foldl_append]

theorem toDigitsCore_append (fuel : Nat) :
    ∀ (n : Nat) (ds : List Char),
      Nat.toDigitsCore 10 fuel n ds = Nat.toDigitsCore 10 fuel n [] ++ ds := by
  induction fuel with
  | zero => intro n ds; simp [Nat.toDigitsCore]
  | succ f ih =>
    intro n ds
    simp only [Nat.toDigitsCore]
    by_cases h : n / 10 = 0
    · simp [h]
    · rw [if_neg h, if_neg h, ih (n / 10) (Nat.digitChar (n % 10) :: ds),
        ih (n / 10) [Nat.digitChar (n % 10)]]
      simp [List.append_assoc]

theorem digitsVal_toDigitsCore (fuel : Nat) :
    ∀ n : Nat, n < fuel → digitsVal (Nat.toDigitsCore 10 fuel n []) = n := by
  induction fuel with
  | zero => intro n h; omega
  | succ f ih =>
    intro n h
    simp only [Nat.toDigitsCore]
    by_cases h0 : n / 10 = 0
    · rw [if_pos h0, digitsVal_singleton,
        digitChar_val (n % 10) (Nat.mod_lt n (by norm_num))]
      omega
    · rw [if_neg h0, toDigitsCore_append, digitsVal_append_digit,
        ih (n / 10) (by omega),
        digitChar_val (n % 10) (Nat.mod_lt n (by norm_num))]
      omega

theorem digitsVal_toDigits (n : Nat) : digitsVal (Nat.toDigits 10 n) = n :=
  digitsVal_toDigitsCore (n + 1) n (Nat.lt_succ_self n)

theorem natToString_injective : Function.Injective (fun n : Nat => toString n) := by
  intro m n h
  have h' : Nat.repr m = Nat.repr n := h
  have hdata : Nat.toDigits 10 m = Nat.toDigits 10 n := by
    have h2 := congrArg String.data h'
    simpa [Nat.repr, List.asString] using h2
  have h3 := congrArg digitsVal hdata
  rwa [digitsVal_toDigits, digitsVal_toDigits] at h3

/-! The ADMS-queue id trace: every mutator except `add_command` leaves
`command_sequence` unchanged, and `add_command` increments it and mints its
decimal string. -/

theorem seqA_add (q : ADMS.ADMSQueue) (text : String) (now : Nat) :
    (ADMS.add_command q text now).2.command_sequence = q.command_sequence + 1 := rfl

theorem seqA_stepIssuedA_le (q : ADMS.ADMSQueue) (op : ADMS.AOp) :
    q.command_sequence ≤ (ADMS.stepIssuedA q op).1.command_sequence := by
  cases op with
  | add text now =>
    show q.command_sequence ≤ (ADMS.add_command q text now).2.command_sequence
    rw [seqA_add]
    omega
  | markSent command_id now => exact Nat.le_of_eq rfl
  | markAcked command_id return_code now => exact Nat.le_of_eq rfl
  | cleanup keep_last_n => exact Nat.le_of_eq rfl

theorem numsA_gt :
    ∀ (ops : List ADMS.AOp) (q : ADMS.ADMSQueue) (n : Nat),
      n ∈ ADMS.runIssuedNumsA q ops → q.command_sequence < n := by
  intro ops
  induction ops with
  | nil => intro q n h; simp [ADMS.runIssuedNumsA] at h
  | cons op rest ih =>
    intro q n h
    cases op with
    | add text now =>
      rw [show ADMS.runIssuedNumsA q (ADMS.AOp.add text now :: rest)
          = [q.command_sequence + 1]
            ++ ADMS.runIssuedNumsA (ADMS.stepIssuedA q (ADMS.AOp.add text now)).1 rest
          from rfl] at h
      rcases List.mem_append.mp h with h | h
      · simp at h
        omega
      · have h1 := ih _ n h
        have h2 := seqA_stepIssuedA_le q (ADMS.AOp.add text now)
        omega
    | markSent command_id now =>
      rw [show ADMS.runIssuedNumsA q (ADMS.AOp.markSent command_id now :: rest)
          = ADMS.runIssuedNumsA (ADMS.stepIssuedA q (ADMS.AOp.markSent command_id now)).1 rest
          from rfl] at h
      have h1 := ih _ n h
      have h2 := seqA_stepIssuedA_le q (ADMS.AOp.markSent command_id now)
      omega
    | markAcked command_id return_code now =>
      rw [show ADMS.runIssuedNumsA q (ADMS.AOp.markAcked command_id return_code now :: rest)
          = ADMS.runIssuedNumsA
              (ADMS.stepIssuedA q (ADMS.AOp.markAcked command_id return_code now)).1 rest
          from rfl] at h
      have h1 := ih _ n h
      have h2 := seqA_stepIssuedA_le q (ADMS.AOp.markAcked command_id return_code now)
      omega
    | cleanup keep_last_n =>
      rw [show ADMS.runIssuedNumsA q (ADMS.AOp.cleanup keep_last_n :: rest)
          = ADMS.runIssuedNumsA (ADMS.stepIssuedA q (ADMS.AOp.cleanup keep_last_n)).1 rest
          from rfl] at h
      have h1 := ih _ n h
      have h2 := seqA_stepIssuedA_le q (ADMS.AOp.cleanup keep_last_n)
      omega

theorem numsA_pairwise :
    ∀ (ops : List ADMS.AOp) (q : ADMS.ADMSQueue),
      List.Pairwise (· < ·) (ADMS.runIssuedNumsA q ops) := by
  intro ops
  induction ops with
  | nil => intro q; simp [ADMS.runIssuedNumsA]
  | cons op rest ih =>
    intro q
    cases op with
    | add text now =>
      rw [show ADMS.runIssuedNumsA q (ADMS.AOp.add text now :: rest)
          = [q.command_sequence + 1]
            ++ ADMS.runIssuedNumsA (ADMS.stepIssuedA q (ADMS.AOp.add text now)).1 rest
          from rfl]
      apply List.pairwise_append.mpr
      refine ⟨by simp, ih _, ?_⟩
      intro a ha b hb
      simp only [List.mem_singleton] at ha
      have h1 := numsA_gt rest (ADMS.stepIssuedA q (ADMS.AOp.add text now)).1 b hb
      have h2 : (ADMS.stepIssuedA q (ADMS.AOp.add text now)).1.command_sequence
          = q.command_sequence + 1 := rfl
      omega
    | markSent command_id now => exact ih _
    | markAcked command_id return_code now => exact ih _
    | cleanup keep_last_n => exact ih _

theorem runIssuedA_eq_map :
    ∀ (ops : List ADMS.AOp) (q : ADMS.ADMSQueue),
      ADMS.runIssuedA q ops
        = (ADMS.runIssuedNumsA q ops).map (fun n => toString n) := by
  intro ops
  induction ops with
  | nil => intro q; rfl
  | cons op rest ih =>
    intro q
    cases op with
    | add text now =>
      show (ADMS.add_command q text now).1.id
            :: ADMS.runIssuedA (ADMS.stepIssuedA q (ADMS.AOp.add text now)).1 rest
          = toString (q.command_sequence + 1)
            :: (ADMS.runIssuedNumsA
                (ADMS.stepIssuedA q (ADMS.AOp.add text now)).1 rest).map (fun n => toString n)
      rw [ih]
      rfl
    | markSent command_id now => exact ih _
    | markAcked command_id return_code now => exact ih _
    | cleanup keep_last_n => exact ih _

/-- Claim C4: Along every operation sequence over either queue
implementation, the ids minted for any one device queue are strictly
increasing and are never reused within that queue's lifetime, cleanup
included.  For the `CommandManager` (integer ids, any interleaving of
devices and of enqueue/drain/acknowledge/cleanup): the ids issued for a
device are pairwise `<` and duplicate-free — cleanup never touches
`_device_seq`.  For an `ADMSQueue` (decimal-string ids, any interleaving
of `add_command`, the mark transitions and the router cleanup): the issued
ids are the decimal strings of the successive counter values, those
counter values are pairwise `<`, and — since the decimal representation is
injective — the issued-id list itself is duplicate-free. -/
theorem C4_issued_ids_strictly_increasing (ops : List CM.Op) (s : CM.CMState)
    (sn : String) (aops : List ADMS.AOp) (q : ADMS.ADMSQueue) :
    (List.Pairwise (· < ·) (CM.issuedFor sn (CM.runIssued s ops))
      ∧ (CM.issuedFor sn (CM.runIssued s ops)).Nodup)
    ∧ (ADMS.runIssuedA q aops
        = (ADMS.runIssuedNumsA q aops).map (fun n => toString n)
      ∧ List.Pairwise (· < ·) (ADMS.runIssuedNumsA q aops)
      ∧ (ADMS.runIssuedA q aops).Nodup) := by
  have hp := issued_pairwise ops s sn
  have hq := numsA_pairwise aops q
  have hmap := runIssuedA_eq_map aops q
  refine ⟨⟨hp, hp.imp (fun h => ne_of_lt h)⟩, hmap, hq, ?_⟩
  rw [hmap]
  exact List.Nodup.map natToString_injective (hq.imp (fun h => ne_of_lt h))

/-! ## Claim C3 -/

/-- Claim C3: For a heartbeat with a (truthy) serial number, when the drained
pending-command list is non-empty the response body is exactly one
newline-terminated line `C:<id>:<command>` per drained command,
concatenated in queue order; when it is empty the body is exactly `OK`. -/
theorem C3_heartbeat_framing (st : Push.PushState) (s : String)
    (info : Option String) (now : Nat) (h : s ≠ "") :
    (Push.get_request st (some s) info now).2.body =
      (if (CM.getPendingCommands (Push.attlogStep st (some s) now).cm s now).1 = []
       then ACK
       else Push.concatLines
         ((CM.getPendingCommands (Push.attlogStep st (some s) now).cm s now).1.map
           Push.wireLine)) := by
  have hmain : Push.get_request st (some s) info now =
      (if (CM.getPendingCommands (Push.attlogStep st (some s) now).cm s now).1.isEmpty
       then ({ Push.attlogStep st (some s) now with
                cm := (CM.getPendingCommands (Push.attlogStep st (some s) now).cm s now).2 },
             ⟨ACK, 200⟩)
       else ({ Push.attlogStep st (some s) now with
                cm := (CM.getPendingCommands (Push.attlogStep st (some s) now).cm s now).2 },
             ⟨Push.responseText
               (CM.getPendingCommands (Push.attlogStep st (some s) now).cm s now).1, 200⟩)) := by
    simp [Push.get_request, h]
  rw [hmain]
  cases hr : (CM.getPendingCommands (Push.attlogStep st (some s) now).cm s now).1 with
  | nil => simp [hr]
  | cons c tl =>
    simp only [hr, List.isEmpty_cons, if_false, Bool.false_eq_true, List.cons_ne_self]
    have hne : (c :: tl) ≠ ([] : List CM.DeviceCommand) := by simp
    simp only [if_neg (by simp : ¬(c :: tl = ([] : List CM.DeviceCommand)))]
    show Push.responseText (c :: tl) = _
    unfold Push.responseText
    rw [List.map_cons]
    exact joinSep_newline_eq_concatLines (Push.wireLine c) (tl.map Push.wireLine)

/-- Claim C3, witness: A concrete heartbeat for device "A" with one pending
command delivers exactly its newline-terminated line. -/
theorem C3_heartbeat_framing_witness :
    (Push.get_request ⟨(CM.queueCommand CM.init "A" "AC_UNLOCK" 0).2, 1000⟩
      (some "A") none 1001).2.body = "C:1:AC_UNLOCK\n" := by
  have h := C3_heartbeat_framing ⟨(CM.queueCommand CM.init "A" "AC_UNLOCK" 0).2, 1000⟩
    "A" none 1001 (by decide)
  rw [h]
  rfl

/-! ## Claim C5 -/

theorem ackDesc_trans : ∀ (a b c : ADMS.DeviceCommand),
    ADMS.ackDesc a b → ADMS.ackDesc b c → ADMS.ackDesc a c := by
  intro a b c hab hbc
  simp only [ADMS.ackDesc, decide_eq_true_eq] at hab hbc ⊢
  omega

theorem ackDesc_total : ∀ (a b : ADMS.DeviceCommand),
    ADMS.ackDesc a b || ADMS.ackDesc b a := by
  intro a b
  simp only [ADMS.ackDesc, Bool.or_eq_true, decide_eq_true_eq]
  omega

theorem sortedAckedDesc_perm (q : ADMS.ADMSQueue) :
    List.Perm (ADMS.sortedAckedDesc q) (q.commands.filter ADMS.isCleanupAcked) :=
  List.mergeSort_perm _ _

theorem sortedAckedDesc_acked (q : ADMS.ADMSQueue) :
    ∀ x ∈ ADMS.sortedAckedDesc q, ADMS.isCleanupAcked x = true := by
  intro x hx
  exact (List.mem_filter.mp (List.mem_mergeSort.mp hx)).2

theorem filter_notin_of_partition {α : Type} [DecidableEq α] (T D : List α)
    (hdisj : ∀ x ∈ T, x ∉ D) :
    (T ++ D).filter (fun a => decide (a ∉ D)) = T := by
  rw [List.filter_append,
    List.filter_eq_self.mpr (fun a ha => by simpa using hdisj a ha),
    List.filter_eq_nil_iff.mpr (fun a ha => by simp [ha])]
  exact List.append_nil T

/-- Claim C5: `_cleanup_device_commands` with `keep_last_n = N`:
(1) commands not in the cleanup's acked set (`pending`/`sent`/`failed`, or
without `ack_at`) are untouched, in order; (2) the surviving acked commands
are exactly the first `N` of the acked commands sorted newest-first by
`ack_at`; (3) hence when more than `N` commands are acked, exactly `N`
remain; (4) every removed acked command's `ack_at` is at most every kept
acked command's `ack_at`.  The distinctness hypothesis reflects that queue
commands carry unique ids. -/
theorem C5_cleanup_keeps_newest (q : ADMS.ADMSQueue) (N : Nat)
    (hnd : q.commands.Nodup) :
    ((ADMS.cleanup_device_commands q N).1.commands.filter
        (fun c => !(ADMS.isCleanupAcked c))
      = q.commands.filter (fun c => !(ADMS.isCleanupAcked c)))
    ∧ List.Perm
        ((ADMS.cleanup_device_commands q N).1.commands.filter ADMS.isCleanupAcked)
        ((ADMS.sortedAckedDesc q).take N)
    ∧ ((q.commands.filter ADMS.isCleanupAcked).length > N →
        ((ADMS.cleanup_device_commands q N).1.commands.filter
          ADMS.isCleanupAcked).length = N)
    ∧ (∀ k ∈ (ADMS.cleanup_device_commands q N).1.commands.filter ADMS.isCleanupAcked,
       ∀ r ∈ q.commands.filter ADMS.isCleanupAcked,
         r ∉ (ADMS.cleanup_device_commands q N).1.commands →
           ADMS.ackKey r ≤ ADMS.ackKey k) := by
  by_cases hlen : (ADMS.sortedAckedDesc q).length > N
  case neg =>
    have hres : (ADMS.cleanup_device_commands q N).1.commands = q.commands := by
      simp [ADMS.cleanup_device_commands, hlen]
    have hlenA : (ADMS.sortedAckedDesc q).length
        = (q.commands.filter ADMS.isCleanupAcked).length :=
      (sortedAckedDesc_perm q).length_eq
    refine ⟨by rw [hres], ?_, ?_, ?_⟩
    · rw [hres, List.take_of_length_le (Nat.le_of_not_lt hlen)]
      exact (sortedAckedDesc_perm q).symm
    · intro hgt
      omega
    · intro k _ r hr hrnot
      rw [hres] at hrnot
      exact absurd (List.mem_filter.mp hr).1 hrnot
  case pos =>
    have hres : (ADMS.cleanup_device_commands q N).1.commands
        = q.commands.diff ((ADMS.sortedAckedDesc q).drop N) := by
      simp [ADMS.cleanup_device_commands, hlen]
    have hresf : (ADMS.cleanup_device_commands q N).1.commands
        = q.commands.filter (fun a => decide (a ∉ (ADMS.sortedAckedDesc q).drop N)) := by
      rw [hres]
      exact List.Nodup.diff_eq_filter hnd
    have hAnd : (q.commands.filter ADMS.isCleanupAcked).Nodup := hnd.filter _
    have hSnd : (ADMS.sortedAckedDesc q).Nodup := (sortedAckedDesc_perm q).symm.nodup hAnd
    have hdisj : ∀ x ∈ (ADMS.sortedAckedDesc q).take N,
        x ∉ (ADMS.sortedAckedDesc q).drop N := by
      have h2 := hSnd
      rw [← List.take_append_drop N (ADMS.sortedAckedDesc q)] at h2
      exact fun x hx hxD => (List.nodup_append.mp h2).2.2 hx hxD
    have hDacked : ∀ x ∈ (ADMS.sortedAckedDesc q).drop N,
        ADMS.isCleanupAcked x = true :=
      fun x hx => sortedAckedDesc_acked q x (List.mem_of_mem_drop hx)
    have hswap : ((q.commands.filter
          (fun a => decide (a ∉ (ADMS.sortedAckedDesc q).drop N))).filter
            ADMS.isCleanupAcked)
        = ((q.commands.filter ADMS.isCleanupAcked).filter
            (fun a => decide (a ∉ (ADMS.sortedAckedDesc q).drop N))) := by
      rw [List.filter_filter, List.filter_filter]
      exact List.filter_congr (fun a _ => Bool.and_comm _ _)
    have hfiltS : (ADMS.sortedAckedDesc q).filter
          (fun a => decide (a ∉ (ADMS.sortedAckedDesc q).drop N))
        = (ADMS.sortedAckedDesc q).take N := by
      have h0 := filter_notin_of_partition ((ADMS.sortedAckedDesc q).take N)
        ((ADMS.sortedAckedDesc q).drop N) hdisj
      rw [List.take_append_drop] at h0
      exact h0
    have hperm : List.Perm
        ((ADMS.cleanup_device_commands q N).1.commands.filter ADMS.isCleanupAcked)
        ((ADMS.sortedAckedDesc q).take N) := by
      rw [hresf, hswap, ← hfiltS]
      exact ((sortedAckedDesc_perm q).symm).filter _
    refine ⟨?_, hperm, ?_, ?_⟩
    · rw [hresf, List.filter_filter]
      apply List.filter_congr
      intro a _
      by_cases hacked : ADMS.isCleanupAcked a = true
      · simp [hacked]
      · have haD : a ∉ (ADMS.sortedAckedDesc q).drop N :=
          fun hmem => hacked (hDacked a hmem)
        simp [hacked, haD]
    · intro hgt
      have hlenA : (ADMS.sortedAckedDesc q).length
          = (q.commands.filter ADMS.isCleanupAcked).length :=
        (sortedAckedDesc_perm q).length_eq
      have hl1 := hperm.length_eq
      rw [List.length_take] at hl1
      omega
    · intro k hk r hr hrnot
      rw [hresf] at hk hrnot
      have hk1 := List.mem_filter.mp hk
      have hk2 := List.mem_filter.mp hk1.1
      have hkD : k ∉ (ADMS.sortedAckedDesc q).drop N := by
        have := hk2.2
        simpa using this
      have hkA : k ∈ q.commands.filter ADMS.isCleanupAcked :=
        List.mem_filter.mpr ⟨hk2.1, hk1.2⟩
      have hkS : k ∈ ADMS.sortedAckedDesc q :=
        (sortedAckedDesc_perm q).symm.subset hkA
      have hkT : k ∈ (ADMS.sortedAckedDesc q).take N := by
        have hks' := hkS
        rw [← List.take_append_drop N (ADMS.sortedAckedDesc q)] at hks'
        rcases List.mem_append.mp hks' with h | h
        · exact h
        · exact absurd h hkD
      have hrq : r ∈ q.commands := (List.mem_filter.mp hr).1
      have hrD : r ∈ (ADMS.sortedAckedDesc q).drop N := by
        by_contra hrD
        exact hrnot (List.mem_filter.mpr ⟨hrq, by simpa using hrD⟩)
      have hsort := List.sorted_mergeSort ackDesc_trans ackDesc_total
        (q.commands.filter ADMS.isCleanupAcked)
      have hsort' : List.Pairwise (fun a b => ADMS.ackDesc a b = true)
          ((ADMS.sortedAckedDesc q).take N ++ (ADMS.sortedAckedDesc q).drop N) := by
        rw [List.take_append_drop]
        exact hsort
      have hkr := (List.pairwise_append.mp hsort').2.2 k hkT r hrD
      simpa [ADMS.ackDesc] using hkr

/-- Claim C5, witness: A queue with three acked commands (ack times 10, 20,
15) and one pending command, cleaned with `keep_last_n = 2`: the pending
command survives and exactly the two newest acked commands remain. -/
theorem C5_cleanup_keeps_newest_witness :
    ((ADMS.cleanup_device_commands
        ⟨[⟨"1", "a", ADMS.Status.acked, 0, some 1, some 10, some "0"⟩,
          ⟨"2", "b", ADMS.Status.acked, 0, some 2, some 20, some "0"⟩,
          ⟨"3", "c", ADMS.Status.pending, 0, none, none, none⟩,
          ⟨"4", "d", ADMS.Status.acked, 0, some 3, some 15, some "0"⟩], 4⟩ 2).1.commands.filter
      (fun c => !(ADMS.isCleanupAcked c))
      = ([⟨"1", "a", ADMS.Status.acked, 0, some 1, some 10, some "0"⟩,
          ⟨"2", "b", ADMS.Status.acked, 0, some 2, some 20, some "0"⟩,
          ⟨"3", "c", ADMS.Status.pending, 0, none, none, none⟩,
          ⟨"4", "d", ADMS.Status.acked, 0, some 3, some 15, some "0"⟩] :
            List ADMS.DeviceCommand).filter (fun c => !(ADMS.isCleanupAcked c)))
    ∧ ((ADMS.cleanup_device_commands
        ⟨[⟨"1", "a", ADMS.Status.acked, 0, some 1, some 10, some "0"⟩,
          ⟨"2", "b", ADMS.Status.acked, 0, some 2, some 20, some "0"⟩,
          ⟨"3", "c", ADMS.Status.pending, 0, none, none, none⟩,
          ⟨"4", "d", ADMS.Status.acked, 0, some 3, some 15, some "0"⟩], 4⟩ 2).1.commands.filter
      ADMS.isCleanupAcked).length = 2 := by
  have h := C5_cleanup_keeps_newest
    ⟨[⟨"1", "a", ADMS.Status.acked, 0, some 1, some 10, some "0"⟩,
      ⟨"2", "b", ADMS.Status.acked, 0, some 2, some 20, some "0"⟩,
      ⟨"3", "c", ADMS.Status.pending, 0, none, none, none⟩,
      ⟨"4", "d", ADMS.Status.acked, 0, some 3, some 15, some "0"⟩], 4⟩ 2 (by decide)
  exact ⟨h.1, h.2.2.1 (by decide)⟩

/-! ## Claim C6 -/

/-- Claim C6, counterexample: A heartbeat with no serial number is not
surfaced as a client error: the handler answers HTTP 200 with body `OK`
(it does leave the state unmutated). -/
theorem C6_anonymous_heartbeat_counterexample :
    (Push.get_request ⟨CM.init, 0⟩ none none 1000).2.statusCode = 200
    ∧ (Push.get_request ⟨CM.init, 0⟩ none none 1000).1 = ⟨CM.init, 0⟩ := by
  constructor <;> rfl

/-- Claim C6, amended: A heartbeat with no serial number causes no state
mutation — nothing is enqueued (not even the rate-limited ATTLOG pull),
nothing is drained, no device entry is touched — but instead of a client
error the handler returns the normal `OK` acknowledgment with HTTP 200. -/
theorem C6_anonymous_heartbeat_no_mutation (st : Push.PushState)
    (info : Option String) (now : Nat) :
    Push.get_request st none info now = (st, ⟨ACK, 200⟩) := by
  unfold Push.get_request Push.attlogStep
  simp

/-! ## Claim C7 -/

/-- Claim C7: Whenever `set_socket_mode` actually reaches a connect attempt
and that attempt fails, the device ends in connection mode `adms`
(push-only) with its socket-mode flag false — it is never left in
`socket+adms` after a failed attempt. -/
theorem C7_socket_failsafe (d : Dev.DeviceState) (is_on force : Bool)
    (env : Dev.SocketEnv)
    (hatt : Dev.attemptsConnect d is_on force = true)
    (hfail : env.connect_ok = false) :
    (Dev.set_socket_mode d is_on force env).connection_mode = Dev.ConnMode.adms
    ∧ (Dev.set_socket_mode d is_on force env).socket_mode = false := by
  obtain ⟨cm, sm, zk⟩ := d
  obtain ⟨dok, cok⟩ := env
  cases cm <;> cases sm <;> cases zk <;> cases dok <;> cases cok <;>
    cases is_on <;> cases force <;>
    simp_all [Dev.set_socket_mode, Dev.attemptsConnect, Dev.is_socket_mode]

/-- Claim C7, witness: A `socket+adms` device with a dead socket: the connect
attempt fails and the device falls back to push-only. -/
theorem C7_socket_failsafe_witness :
    (Dev.set_socket_mode ⟨Dev.ConnMode.socketAdms, false, false⟩ true false
      ⟨true, false⟩).connection_mode = Dev.ConnMode.adms
    ∧ (Dev.set_socket_mode ⟨Dev.ConnMode.socketAdms, false, false⟩ true false
      ⟨true, false⟩).socket_mode = false :=
  C7_socket_failsafe ⟨Dev.ConnMode.socketAdms, false, false⟩ true false
    ⟨true, false⟩ (by decide) rfl

/-! ## Claim C8 -/

/-- Claim C8: `POST /devicecmd.aspx` answers the literal token `OK` on every
input — whatever the serial number, body, or how many records validate. -/
theorem C8_devicecmd_always_ok (s : CM.CMState) (snQuery : Option String)
    (body : Option Push.BodyData) (now : Nat) :
    (Push.device_command_post s snQuery body now).2 = ACK := by
  cases body <;> rfl

/-! ## Claim C9 -/

/-- Claim C9, counterexample: The id `-5` is rejected by the wire-format
validator (`validate_command_id`: not alphanumeric), yet the POST
acknowledgment path parses it with `int()` and applies it against the
command queue via `acknowledge_command` — the validator is not invoked on
this path. -/
theorem C9_invalid_id_applied_counterexample :
    validate_command_id "A1" (some "-5") = none
    ∧ (Push.processAckPost CM.init "A1" ⟨some "-5", some "0", some "REBOOT", none⟩ 0).2
        = true := by
  constructor <;> rfl

/-- Claim C9, amended: On the POST acknowledgment path a record whose ID
fails Python integer parsing is discarded (with a warning, not fatally) and
no queue state is mutated for it; integer-parsable ids, however, are applied
against the queue regardless of the alphanumeric/length-16 wire
constraint. -/
theorem C9_unparseable_id_discarded (s : CM.CMState) (sn : String)
    (bd : Push.BodyData) (now : Nat)
    (h : Push.intParse? (bd.ID.getD "") = none) :
    Push.processAckPost s sn bd now = (s, false) := by
  unfold Push.processAckPost
  by_cases hg : (sn != "" && Push.optTruthy bd.ID && Push.optTruthy bd.CMD) = true
  · simp [hg, h]
  · simp only [Bool.not_eq_true] at hg
    simp [hg]

/-- Claim C9, witness: A record with the unparseable id "ZZ" is dropped with
the manager untouched. -/
theorem C9_unparseable_id_discarded_witness :
    Push.processAckPost CM.init "A" ⟨some "ZZ", some "0", some "X", none⟩ 0
      = (CM.init, false) :=
  C9_unparseable_id_discarded CM.init "A" ⟨some "ZZ", some "0", some "X", none⟩ 0 rfl

end ESSL
